import Mathlib

/-!
Verification of the acmebot certificate manager core against its
natural-language specification.

The Python sources are shallowly embedded: each Python function relevant to a
claim is translated into an executable Lean definition over explicit state
(filesystems become partial maps from paths to contents, hook queues become
ordered association lists, network answers become oracle functions), and the
claims are settled as theorems about those definitions.

Sources embedded here: certlib/utils.py (file-transaction engine and hook
runner), certlib/acme.py (registration bootstrap, challenge handling,
authorization polling), acmebot/verify.py (deployed-certificate verifier).
-/

/-! ## String helpers

Python string primitives used by the embedded code, modelled over `String`.
-/

/-- Models Python `s.startswith(p)`. -/
def strStartsWith (s p : String) : Bool :=
  p.data.isPrefixOf s.data

/-- Models Python slicing `s[n:]`. -/
def strDrop (s : String) (n : Nat) : String :=
  ⟨s.data.drop n⟩

/-- Models Python `s.lower()` (faithful on ASCII, which is all the embedded
code compares). -/
def strToLower (s : String) : String :=
  ⟨s.data.map Char.toLower⟩

/-! ## Verifier: wildcard host rewriting (acmebot/verify.py, lines 97-100)

`_verify_certificate_installation` rewrites a wildcard host name before
resolving it:

    if host_name.startswith('*.'):
        host_name = 'wildcard-test.' + host_name[2:]
    addr_info = socket.getaddrinfo(host_name, port_number, ...)
-/

/-- The host name actually resolved and dialled by
`_verify_certificate_installation`, as a function of the configured verify
host name. -/
def rewriteHost (host_name : String) : String :=
  if strStartsWith host_name "*." then "wildcard-test." ++ strDrop host_name 2
  else host_name

/-! ## Verifier: OCSP staple retry loop (acmebot/verify.py, lines 110-117)

    installed_certificates, ocsp_staple = fetch_tls_info(...)
    if item.certificate.has_oscp_must_staple:
        attempts = 1
        while (not ocsp_staple) and (attempts < max_ocsp_verify_attempts):
            time.sleep(ocsp_verify_retry_delay)
            installed_certificates, ocsp_staple = fetch_tls_info(...)
            attempts += 1

The TLS handshakes are replaced by an oracle `staple : Nat → Bool` giving
whether the n-th handshake (0-based; handshake 0 is the initial one before the
loop) returned an OCSP staple.  The function returns the total number of
handshakes performed and the number of sleeps. -/

/-- The retry loop, indexed by the remaining attempt budget
`gas = maxAttempts - attempts` (the Python guard `attempts <
max_ocsp_verify_attempts` is exactly `gas > 0`, and `attempts += 1` is
`gas - 1`).  `fetches` counts handshakes done so far, `sleeps` the sleeps;
the latest handshake is number `fetches - 1`. -/
def ocspGoAux (staple : Nat → Bool) : Nat → Nat → Nat → Nat × Nat
  | 0, fetches, sleeps => (fetches, sleeps)
  | gas + 1, fetches, sleeps =>
    if staple (fetches - 1) then (fetches, sleeps)
    else ocspGoAux staple gas (fetches + 1) (sleeps + 1)

/-- The must-staple portion of `_verify_certificate_installation`: performs
the initial handshake, then enters the retry loop with `attempts = 1`.
Returns (total handshakes, total sleeps of `ocsp_verify_retry_delay`). -/
def ocspRetry (maxAttempts : Nat) (staple : Nat → Bool) : Nat × Nat :=
  ocspGoAux staple (maxAttempts - 1) 1 0

/-! ## Registration bootstrap: terms-of-service prompt (certlib/acme.py,
lines 109-121)

    if "terms_of_service" in acme_client.directory.meta:
        if sys.stdin.isatty():
            ...
            answer = input('Accept? (Y/n) ')
            if answer and not answer.lower().startswith('y'):
                raise Exception('Terms of service rejected.')
            log.debug('Terms of service accepted.')
        else:
            log.debug('Terms of service auto-accepted: %s', tos)
-/

/-- Outcome of the terms-of-service step when the directory advertises terms. -/
inductive TosDecision where
  | promptAccepted
  | autoAccepted
  | rejected
deriving DecidableEq

/-- The terms-of-service decision of `connect_client` as a function of whether
stdin is a TTY and of the answer read from the prompt. -/
def acceptTos (isTty : Bool) (answer : String) : TosDecision :=
  if isTty then
    if (!answer.isEmpty) && !strStartsWith (strToLower answer) "y" then
      TosDecision.rejected
    else
      TosDecision.promptAccepted
  else
    TosDecision.autoAccepted

/-! ## Registration bootstrap: directory-URL origin check (certlib/acme.py,
lines 40-134)

    acme_url = urllib.parse.urlparse(directory_url)
    reg_url = urllib.parse.urlparse(registration.uri)
    if (acme_url[0] != reg_url[0]) or (acme_url[1] != reg_url[1]):
        registration = None

`urlparse` component 0 is the scheme (lowercased), component 1 the netloc
(everything between `//` and the next `/`, `?` or `#`).  The model below
implements exactly these two components for absolute URLs. -/

/-- True for characters allowed in a URL scheme. -/
def isSchemeChar (c : Char) : Bool :=
  c.isAlphanum || c = '+' || c = '-' || c = '.'

/-- Splits a URL into (scheme, remainder after the colon); scheme is empty
when the URL has no scheme, mirroring `urllib.parse.urlparse`. -/
def urlSplitScheme (u : List Char) : List Char × List Char :=
  let s := u.takeWhile (fun c => c ≠ ':')
  let r := u.dropWhile (fun c => c ≠ ':')
  if s ≠ [] ∧ r ≠ [] ∧ s.all isSchemeChar then (s.map Char.toLower, r.drop 1)
  else ([], u)

/-- Extracts the netloc from the remainder following the scheme: present only
after `//`, delimited by `/`, `?` or `#`. -/
def netlocOf (rest : List Char) : List Char :=
  if ['/', '/'].isPrefixOf rest then
    (rest.drop 2).takeWhile (fun c => c ≠ '/' ∧ c ≠ '?' ∧ c ≠ '#')
  else []

/-- Component 0 of `urllib.parse.urlparse`: the scheme. -/
def urlScheme (u : String) : String :=
  ⟨(urlSplitScheme u.data).1⟩

/-- Component 1 of `urllib.parse.urlparse`: the netloc. -/
def urlNetloc (u : String) : String :=
  ⟨netlocOf (urlSplitScheme u.data).2⟩

/-- The host within a netloc, following `urlparse(...).hostname`: drop the
userinfo before the last `@`, then take up to the port separator `:`
(IPv6 bracket form: take the bracketed part), lowercased. -/
def netlocHost (n : String) : String :=
  let afterUser := (n.data.reverse.takeWhile (fun c => c ≠ '@')).reverse
  let h := if ['['].isPrefixOf afterUser then
      afterUser.takeWhile (fun c => c ≠ ']') ++ [']']
    else
      afterUser.takeWhile (fun c => c ≠ ':')
  ⟨h.map Char.toLower⟩

/-- The host of a URL: the host part of its netloc. -/
def urlHost (u : String) : String :=
  netlocHost (urlNetloc u)

/-- The stored-registration check of `connect_client` (lines 46-50): the
registration is kept only when scheme and netloc of the stored registration
URI both equal those of the configured directory URL. -/
def registrationKept (directory_url registration_uri : String) : Bool :=
  urlScheme directory_url == urlScheme registration_uri &&
  urlNetloc directory_url == urlNetloc registration_uri

/-- Whether `connect_client` ends up reusing the stored registration or
registering a fresh account. -/
inductive RegOutcome where
  | reused
  | fresh
deriving DecidableEq

/-- The registration decision of `connect_client` (lines 40-134): the stored
registration (if any) is discarded when the URL check fails; when kept, it
still requires an existing client key (current `client.key` or legacy
`client_key.json`), otherwise a fresh key and a fresh account are created. -/
def connectRegistration (stored : Option String) (directory_url : String)
    (clientKeyExists legacyKeyExists : Bool) : RegOutcome :=
  match stored with
  | none => RegOutcome.fresh
  | some uri =>
    if registrationKept directory_url uri then
      if clientKeyExists then RegOutcome.reused
      else if legacyKeyExists then RegOutcome.reused
      else RegOutcome.fresh
    else RegOutcome.fresh

/-! ## File-transaction engine (certlib/utils.py, lines 31-195)

The filesystem is a partial map from paths to file contents.  Directories are
not modelled (the `makedirs`/`removedirs` bookkeeping of the source only
creates and removes empty parent directories and never affects which files
exist at which paths).  `os.rename` is modelled as remove-source-then-write-
destination, `os.remove` as removal, file writes as map update; `fchmod` and
`fchown` failures are caught and only logged by the source, so modes and
owners carry no transactional behaviour. -/

/-- A filesystem: a partial map from paths to file contents. -/
def FS := String → Option String

/-- Reading a path. -/
def fsRead (fs : FS) (p : String) : Option String := fs p

/-- Writing (or overwriting) a file. -/
def fsWrite (fs : FS) (p : String) (c : String) : FS :=
  fun q => if q = p then some c else fs q

/-- Removing a file (no-op when absent, matching the suppressed
`FileNotFoundError`). -/
def fsRemove (fs : FS) (p : String) : FS :=
  fun q => if q = p then none else fs q

/-- The filesystem with no files. -/
def fsEmpty : FS := fun _ => none

/-- A `WriteOperation` (certlib/utils.py line 45) or one of its subclasses
`ArchiveAndWriteOperation` / `ArchiveOperation` (lines 133, 160):
`archiving = true` for the subclasses.  `content` is the `_content` slot
(`none` when never set); `file_type` is used only for the archive location.
`mode` and `owner` are carried for fidelity but have no transactional
effect (see the module comment). -/
structure WriteOp where
  file_path : String
  mode : Nat
  content : Option String
  archiving : Bool
  file_type : String
deriving DecidableEq

/-- Python truthiness of the `_content` slot (`None`, `''` and `b''` are
falsy). -/
def contentTruthy : Option String → Bool
  | none => false
  | some s => !s.isEmpty

/-- `WriteOperation.is_write` (line 63): `bool(self._content)`. -/
def WriteOp.is_write (op : WriteOp) : Bool :=
  contentTruthy op.content

/-- The last path component, as `os.path.basename`. -/
def basename (p : String) : String :=
  ⟨(p.data.reverse.takeWhile (fun c => c ≠ '/')).reverse⟩

/-- The backup path chosen by `tmp_path` (lines 67-68 and 141-146) together
with the `_archived` flag: an archive location when the operation archives and
an archive directory is configured, otherwise a sibling temporary name in the
destination directory (`tempfile.mktemp(prefix='.old-', ...)`, modelled by the
deterministic fresh name `".old-" ++ file_path`; the separation hypotheses of
the theorems state the freshness that `mktemp` provides). -/
def tmpPathOf (archive_dir : Option String) (op : WriteOp) : String × Bool :=
  if op.archiving then
    match archive_dir with
    | some d => (d ++ "/" ++ op.file_type ++ "/" ++ basename op.file_path, true)
    | none => (".old-" ++ op.file_path, false)
  else (".old-" ++ op.file_path, false)

/-- The backup path of an operation. -/
def tmpOf (archive_dir : Option String) (op : WriteOp) : String :=
  (tmpPathOf archive_dir op).1

/-- The runtime state a `WriteOperation` accumulates during `apply`:
the `_tmp_path` and `_archived` slots. -/
structure OpState where
  tmp_path : Option String
  archived : Bool
deriving DecidableEq

/-- Failure injection for one `apply` call: `noFail` runs it to completion;
`failBeforeRename` fails before the original file is moved aside (e.g. the
`makedirs` call raising other than `FileExistsError`); `failOpen` fails in
the `open(self.file_path, mode)` call itself, after a successful rename, so
no file is created at the target; `failDuringWrite written` fails after
`open` succeeded — `open` with mode `w`/`wb` creates or truncates the target
before anything is written, and a failure in `os.fchmod` (other than
`PermissionError`), `os.fchown` (likewise) or `f.write` leaves the file
holding whatever reached it, recorded as `written` (in reality a prefix of
the content, possibly empty; the model leaves it unconstrained, which only
broadens the failure behaviours covered). -/
inductive FailureMode where
  | noFail
  | failBeforeRename
  | failOpen
  | failDuringWrite (written : String)
deriving DecidableEq

/-- `WriteOperation.apply` (lines 70-103): move any existing file at
`file_path` to the backup path, then, when `_content` is truthy, write the
new file.  Returns the new filesystem and `some` final operation state on
success, `none` when the injected failure fired (the exception propagates to
`commit_file_transactions` and the operation is not recorded as applied).
On `failOpen` the target is left absent; on `failDuringWrite written` the
`open` has already created or truncated the target, which is left holding
`written`. -/
def applyOp (archive_dir : Option String) (op : WriteOp) (f : FailureMode)
    (fs : FS) : FS × Option OpState :=
  match f with
  | FailureMode.failBeforeRename => (fs, none)
  | _ =>
    let tmp := tmpOf archive_dir op
    let arch := (tmpPathOf archive_dir op).2
    let moved := fsRead fs op.file_path
    let fs1 := match moved with
      | some c => fsWrite (fsRemove fs op.file_path) tmp c
      | none => fs
    let tp : Option String := match moved with
      | some _ => some tmp
      | none => none
    if contentTruthy op.content then
      match f with
      | FailureMode.failOpen => (fs1, none)
      | FailureMode.failDuringWrite written =>
        (fsWrite fs1 op.file_path written, none)
      | _ => (fsWrite fs1 op.file_path (op.content.getD ""), some ⟨tp, arch⟩)
    else (fs1, some ⟨tp, arch⟩)

/-- `WriteOperation.revert` (lines 105-115): remove the file at `file_path`
(`FileNotFoundError` suppressed), then rename the recorded backup back.  When
the backup path unexpectedly holds no file the rename raises; the caller
catches the exception, so the model leaves the filesystem as it stands. -/
def revertOp (op : WriteOp) (st : OpState) (fs : FS) : FS :=
  let fs1 := fsRemove fs op.file_path
  match st.tmp_path with
  | some tmp =>
    match fsRead fs1 tmp with
    | some c => fsWrite (fsRemove fs1 tmp) op.file_path c
    | none => fs1
  | none => fs1

/-- `cleanup` (lines 117-130 and 153-157): archived backups stay; otherwise
the temporary backup is deleted. -/
def cleanupOp (op : WriteOp) (st : OpState) (fs : FS) : FS :=
  if st.archived then fs
  else
    match st.tmp_path with
    | some tmp => fsRemove fs tmp
    | none => fs

/-- The apply phase of `commit_file_transactions` (lines 175-179): apply each
operation in submission order, recording applied operations; stop at the
first failure.  Returns (applied operations with their states, filesystem,
success flag). -/
def applyAll (archive_dir : Option String) :
    List (WriteOp × FailureMode) → FS → List (WriteOp × OpState) × FS × Bool
  | [], fs => ([], fs, true)
  | (op, f) :: rest, fs =>
    match applyOp archive_dir op f fs with
    | (fs1, none) => ([], fs1, false)
    | (fs1, some st) =>
      let r := applyAll archive_dir rest fs1
      ((op, st) :: r.1, r.2)

/-- The rollback loop (lines 184-188): the source iterates `applied` in the
order the operations were applied (a plain `for op in applied`), reverting
each; a failing revert is caught and logged. -/
def revertAll : List (WriteOp × OpState) → FS → FS
  | [], fs => fs
  | (op, st) :: rest, fs => revertAll rest (revertOp op st fs)

/-- The cleanup loop (lines 191-195). -/
def cleanupAll : List (WriteOp × OpState) → FS → FS
  | [], fs => fs
  | (op, st) :: rest, fs => cleanupAll rest (cleanupOp op st fs)

/-- One event of a commit, for stating ordering properties. -/
inductive FileEv where
  | applyEv (op : WriteOp)
  | revertEv (op : WriteOp)
  | cleanupEv (op : WriteOp)
deriving DecidableEq

/-- Result of `commit_file_transactions`: final filesystem, whether the
commit succeeded (the source re-raises the apply exception after rollback),
and the ordered trace of apply / revert / cleanup events. -/
structure CommitResult where
  fs : FS
  ok : Bool
  trace : List FileEv

/-- `commit_file_transactions` (lines 169-195). -/
def commit_file_transactions (operations : List (WriteOp × FailureMode))
    (archive_dir : Option String) (fs : FS) : CommitResult :=
  if operations.isEmpty then ⟨fs, true, []⟩
  else
    let r := applyAll archive_dir operations fs
    if r.2.2 then
      ⟨cleanupAll r.1 r.2.1, true,
        r.1.map (fun x => FileEv.applyEv x.1) ++ r.1.map (fun x => FileEv.cleanupEv x.1)⟩
    else
      ⟨revertAll r.1 r.2.1, false,
        r.1.map (fun x => FileEv.applyEv x.1) ++ r.1.map (fun x => FileEv.revertEv x.1)⟩

/-- Separation of the paths a group of operations touches: target paths and
backup paths are pairwise distinct and no backup path equals a target path.
`tempfile.mktemp` guarantees the freshness of sibling temporary names; the
archive locations are distinct whenever the operations have distinct
basenames or file types. -/
def SepPaths (archive_dir : Option String) (l : List WriteOp) : Prop :=
  l.Pairwise (fun a b =>
    a.file_path ≠ b.file_path ∧
    a.file_path ≠ tmpOf archive_dir b ∧
    tmpOf archive_dir a ≠ b.file_path ∧
    tmpOf archive_dir a ≠ tmpOf archive_dir b) ∧
  ∀ op ∈ l, tmpOf archive_dir op ≠ op.file_path

/-- Backup locations hold no file before the commit starts. -/
def TmpFresh (archive_dir : Option String) (l : List WriteOp) (fs : FS) : Prop :=
  ∀ op ∈ l, fsRead fs (tmpOf archive_dir op) = none

/-! ## Hook runner (certlib/utils.py, lines 198-243)

A configured hook command is, after `shlex` splitting, a list of argv
templates.  A Python format string is modelled as the list of its literal and
`\x7bkey\x7d` pieces; `str.format` concatenates them, raising `KeyError` on
an unknown key.  Subprocess execution is an oracle `exec : argv → Bool`
(`true` = exit 0); `subprocess.CalledProcessError` and any other spawn
failure are caught by `call` and only logged. -/

/-- One piece of a Python format string: a literal, or a substitution field. -/
inductive Tok where
  | lit (s : String)
  | var (k : String)
deriving DecidableEq

/-- An argv entry template (a Python format string). -/
abbrev Template := List Tok

/-- A configured hook command: its argv templates (the `args` list). -/
abbrev HookCmd := List Template

/-- Python `str.format(**kwargs)` on one token. -/
def formatTok (kwargs : List (String × String)) : Tok → Except String String
  | Tok.lit s => Except.ok s
  | Tok.var k =>
    match kwargs.find? (fun e => e.1 == k) with
    | some e => Except.ok e.2
    | none => Except.error k

/-- Python `str.format(**kwargs)` on a template: concatenation, failing with
the first unknown key. -/
def formatArg (kwargs : List (String × String)) : Template → Except String String
  | [] => Except.ok ""
  | tok :: rest =>
    match formatTok kwargs tok with
    | Except.error k => Except.error k
    | Except.ok s =>
      match formatArg kwargs rest with
      | Except.error k => Except.error k
      | Except.ok r => Except.ok (s ++ r)

/-- Formatting every argv entry of one command (`[arg.format(**kwargs) for arg
in hook['args']]`). -/
def formatArgs (kwargs : List (String × String)) : HookCmd → Except String (List String)
  | [] => Except.ok []
  | arg :: rest =>
    match formatArg kwargs arg with
    | Except.error k => Except.error k
    | Except.ok s =>
      match formatArgs kwargs rest with
      | Except.error k => Except.error k
      | Except.ok l => Except.ok (s :: l)

/-- The `_hooks` ordered mapping: hook names in first-insertion order, each
with its queued resolved invocations in append order. -/
abbrev HooksQueue := List (String × List (List String))

/-- Appending resolved invocations under a name: an existing name keeps its
position and grows its list; a new name is appended at the end (OrderedDict
insertion semantics). -/
def queueAppend (q : HooksQueue) (name : String) (argvs : List (List String)) :
    HooksQueue :=
  match q with
  | [] => [(name, argvs)]
  | (n, l) :: rest =>
    if n = name then (n, l ++ argvs) :: rest
    else (n, l) :: queueAppend rest name argvs

/-- The loop body of `Hooks.add` (lines 216-227): process the configured
commands in order, formatting each; the first `KeyError` stops the loop, is
caught, and becomes a warning, keeping the invocations resolved so far. -/
def addLoop (kwargs : List (String × String)) :
    List HookCmd → List (List String) × Option String
  | [] => ([], none)
  | cmd :: rest =>
    match formatArgs kwargs cmd with
    | Except.error k => ([], some k)
    | Except.ok argv =>
      let r := addLoop kwargs rest
      (argv :: r.1, r.2)

namespace Hooks

/-- `Hooks.add` (lines 205-227): look up the configured commands for the
name (`commands` is the configured mapping; an unconfigured or empty entry is
falsy and returns immediately), then queue the resolved invocations; an
unknown substitution key is caught and returned as a warning, never raised.
Returns the new queue and the optional warning. -/
def add (commands : String → List HookCmd) (q : HooksQueue) (name : String)
    (kwargs : List (String × String)) : HooksQueue × Option String :=
  match commands name with
  | [] => (q, none)
  | cmds =>
    let r := addLoop kwargs cmds
    (queueAppend q name r.1, r.2)

/-- `Hooks.call` (lines 229-243): run every queued invocation in queue order,
recording each argv with its exit result; failures are caught and logged, and
the loop continues.  Afterwards `_clear_hooks` empties the queue.  Returns
the execution trace and the emptied queue. -/
def call (q : HooksQueue) (exec : List String → Bool) :
    List (List String × Bool) × HooksQueue :=
  (((q.map Prod.snd).flatten).map (fun a => (a, exec a)), [])

end Hooks

/-! ## Challenge handling (certlib/acme.py, lines 144-206)

`handle_authorizations` after the challenge files have been written: the
remaining control flow (lines 190-206) is

    try:
        hooks.call()
        authorizations += _get_authorizations(...)
    except Exception:
        for challenge_file in challenge_http_responses.values():
            os.remove(challenge_file)
        raise

    for domain_name, challenge_file in challenge_http_responses.items():
        os.remove(challenge_file)
        hooks.add('clear_http_challenge', domain=domain_name, file=challenge_file)
    hooks.call()

The polling outcome is abstracted to a success flag; hook activity is
recorded as an event trace. -/

/-- A written challenge: its domain and its challenge file path. -/
structure ChalInfo where
  domain : String
  file : String
deriving DecidableEq

/-- Observable hook activity of `handle_authorizations`. -/
inductive HookEv where
  | addEv (hook domain file : String)
  | callEv
deriving DecidableEq

/-- Result of the modelled flow: whether the call returned normally, the
challenge files remaining on disk, and the hook events in order. -/
structure HAResult where
  ok : Bool
  files : List String
  events : List HookEv

/-- The flow of `handle_authorizations` from the point where all challenge
files in `challenges` have been written and the `set_http_challenge` hooks
queued (lines 177-184), with `pollOk` the outcome of `_get_authorizations`. -/
def handleAuths (challenges : List ChalInfo) (pollOk : Bool) : HAResult :=
  let setEvents := challenges.map (fun c => HookEv.addEv "set_http_challenge" c.domain c.file)
  if pollOk then
    { ok := true
      files := []
      events := setEvents ++ [HookEv.callEv] ++
        challenges.map (fun c => HookEv.addEv "clear_http_challenge" c.domain c.file) ++
        [HookEv.callEv] }
  else
    { ok := false
      files := []
      events := setEvents ++ [HookEv.callEv] }

/-! ## Authorization polling (certlib/acme.py, lines 212-263)

The poll loop keeps a waiting queue of domains, a per-authorization attempt
counter (`attempts = collections.defaultdict(int)`), and collects valid
authorizations.  The server is an oracle: `server d k` is the outcome of the
k-th poll of domain `d` (0-based).  A non-200 response requeues without
touching the counter; a 200 response increments the counter and then
branches on the status. -/

/-- Outcome of one `acme_client.poll` call. -/
inductive PollAnswer where
  | non200
  | valid
  | invalid
  | pending
  | unknown
deriving DecidableEq

/-- Why the poll loop raised. -/
inductive PollErr where
  | authFailed (domain : String)
  | timeout (domain : String)
  | unexpectedStatus (domain : String)
deriving DecidableEq

/-- Result of running the poll loop under a fuel bound on the number of
loop iterations. -/
inductive PollOutcome where
  | ok (domains : List String)
  | err (e : PollErr)
  | outOfFuel
deriving DecidableEq

/-- The mutable state of the poll loop. -/
structure PollState where
  waiting : List String
  polls : String → Nat
  attempts : String → Nat
  collected : List String

/-- Bump a counter map at one domain. -/
def bump (m : String → Nat) (d : String) : String → Nat :=
  fun x => if x = d then m d + 1 else m x

/-- The poll loop of `_get_authorizations` (lines 228-261), with `fuel`
bounding the number of iterations (each iteration performs exactly one
poll).  Sleeping until the head's retry time is dropped: it does not affect
which polls happen or in which order. -/
def runPolls (server : String → Nat → PollAnswer) (retry : Nat) :
    Nat → PollState → PollOutcome × PollState
  | 0, st =>
    match st.waiting with
    | [] => (PollOutcome.ok st.collected, st)
    | _ => (PollOutcome.outOfFuel, st)
  | fuel + 1, st =>
    match st.waiting with
    | [] => (PollOutcome.ok st.collected, st)
    | d :: rest =>
      let k := st.polls d
      let st1 := { st with polls := bump st.polls d }
      match server d k with
      | PollAnswer.non200 =>
        runPolls server retry fuel { st1 with waiting := rest ++ [d] }
      | ans =>
        let st2 := { st1 with attempts := bump st1.attempts d }
        match ans with
        | PollAnswer.valid =>
          runPolls server retry fuel
            { st2 with waiting := rest, collected := st2.collected ++ [d] }
        | PollAnswer.invalid => (PollOutcome.err (PollErr.authFailed d), st2)
        | PollAnswer.pending =>
          if st2.attempts d > retry then
            (PollOutcome.err (PollErr.timeout d), st2)
          else
            runPolls server retry fuel { st2 with waiting := rest ++ [d] }
        | _ => (PollOutcome.err (PollErr.unexpectedStatus d), st2)

/-- The initial poll state for a set of pending domains. -/
def initPollState (domains : List String) : PollState :=
  { waiting := domains, polls := fun _ => 0, attempts := fun _ => 0, collected := [] }

/-! ## Theorems -/

/-! ### C9: wildcard host rewriting -/

/-- C9: for every verify host name of the form `*.X` the verifier resolves
and dials `wildcard-test.X`, and a non-wildcard host name is left
unchanged. -/
theorem wildcard_host_rewrite (X : String) :
    rewriteHost ("*." ++ X) = "wildcard-test." ++ X ∧
    ∀ h : String, strStartsWith h "*." = false → rewriteHost h = h := by
  constructor
  · have hd : ("*." ++ X).data = '*' :: '.' :: X.data := by
      rw [String.data_append]
      simp
    have hpre : strStartsWith ("*." ++ X) "*." = true := by
      unfold strStartsWith
      rw [hd]
      simp [List.isPrefixOf]
    unfold rewriteHost
    rw [hpre]
    simp only [if_true]
    unfold strDrop
    rw [hd]
    rfl
  · intro h hne
    unfold rewriteHost
    rw [hne]
    rfl

/-- Witness for C9 at concrete hosts. -/
theorem wildcard_host_rewrite_witness :
    rewriteHost "*.example.com" = "wildcard-test.example.com" ∧
    rewriteHost "www.example.com" = "www.example.com" := by
  have h := wildcard_host_rewrite "example.com"
  exact ⟨h.1, h.2 "www.example.com" (by decide)⟩

/-! ### C7: terms-of-service prompt -/

/-- Counterexample to C7: with a TTY, the empty answer (just pressing return
at `Accept? (Y/n) `) proceeds with registration although it is not an
affirmative answer starting with `y`, because the source only raises for a
non-empty non-`y` answer (`if answer and not answer.lower().startswith('y')`). -/
theorem tos_empty_answer_cex :
    acceptTos true "" = TosDecision.promptAccepted ∧
    strStartsWith (strToLower "") "y" = false := by
  decide

/-- C7 as amended: with a TTY the client proceeds exactly when the answer is
empty or starts with `y` case-insensitively, raising otherwise; without a TTY
the terms are auto-accepted (with a log entry). -/
theorem tos_prompt_decision (answer : String) :
    (acceptTos true answer ≠ TosDecision.rejected ↔
      (answer.isEmpty = true ∨ strStartsWith (strToLower answer) "y" = true)) ∧
    acceptTos false answer = TosDecision.autoAccepted := by
  constructor
  · unfold acceptTos
    cases h1 : answer.isEmpty <;>
      cases h2 : strStartsWith (strToLower answer) "y" <;>
        simp [h1, h2]
  · rfl

/-- Witness for C7 at concrete answers. -/
theorem tos_prompt_decision_witness :
    acceptTos true "Yes" ≠ TosDecision.rejected ∧
    acceptTos false "whatever" = TosDecision.autoAccepted :=
  ⟨(tos_prompt_decision "Yes").1.mpr (Or.inr (by decide)),
   (tos_prompt_decision "whatever").2⟩

/-! ### C6: OCSP staple retry bound -/

/-- Closed form of the retry loop against a server that never staples. -/
theorem ocspGoAux_noStaple (gas fetches sleeps : Nat) :
    ocspGoAux (fun _ => false) gas fetches sleeps =
      (fetches + gas, sleeps + gas) := by
  induction gas generalizing fetches sleeps with
  | zero => rfl
  | succ g ih =>
    unfold ocspGoAux
    simp only [Bool.false_eq_true, if_false]
    rw [ih]
    simp only [Prod.mk.injEq]
    omega

/-- The loop sleeps exactly once before every handshake after the first. -/
theorem ocspGoAux_sleeps (staple : Nat → Bool) (gas fetches sleeps : Nat) :
    (ocspGoAux staple gas fetches sleeps).1 + sleeps =
      (ocspGoAux staple gas fetches sleeps).2 + fetches := by
  induction gas generalizing fetches sleeps with
  | zero =>
    simp only [ocspGoAux]
    omega
  | succ g ih =>
    unfold ocspGoAux
    cases staple (fetches - 1)
    · simp only [Bool.false_eq_true, if_false]
      have h := ih (fetches + 1) (sleeps + 1)
      omega
    · simp only [if_true]
      omega

/-- Counterexample to C6: with `max_ocsp_verify_attempts = 2` against a server
that never returns a staple, the verifier performs 2 handshakes in total, i.e.
only 1 retry after the first handshake — not the 2 retries (3 handshakes) the
claim describes, because `attempts` starts at 1 counting the initial
handshake. -/
theorem ocsp_retry_cex :
    ocspRetry 2 (fun _ => false) = (2, 1) ∧ (2 : Nat) ≠ 1 + 2 := by
  constructor
  · show ocspGoAux (fun _ => false) (2 - 1) 1 0 = (2, 1)
    rw [ocspGoAux_noStaple]
  · decide

/-- C6 as amended: when the certificate has must-staple and no handshake ever
returns a staple, the verifier performs `max_ocsp_verify_attempts` handshakes
in total — the first plus `max_ocsp_verify_attempts - 1` retries — sleeping
`ocsp_verify_retry_delay` once before each retry, before declaring the
validation error. -/
theorem ocsp_retry_bound (maxAttempts : Nat) (staple : Nat → Bool)
    (hm : 1 ≤ maxAttempts) (hs : ∀ n, staple n = false) :
    ocspRetry maxAttempts staple = (maxAttempts, maxAttempts - 1) ∧
    (ocspRetry maxAttempts staple).1 = (ocspRetry maxAttempts staple).2 + 1 := by
  have hfun : staple = fun _ => false := funext hs
  subst hfun
  constructor
  · unfold ocspRetry
    rw [ocspGoAux_noStaple]
    simp only [Prod.mk.injEq]
    omega
  · have h := ocspGoAux_sleeps (fun _ => false) (maxAttempts - 1) 1 0
    unfold ocspRetry
    omega

/-- Witness for C6 at `max_ocsp_verify_attempts = 3`. -/
theorem ocsp_retry_bound_witness :
    ocspRetry 3 (fun _ => false) = (3, 2) :=
  (ocsp_retry_bound 3 (fun _ => false) (by decide) (fun _ => rfl)).1

/-! ### C5: registration origin check -/

/-- C5: a stored registration is reused only when its URI's scheme and host
both equal the configured directory URL's scheme and host (the code compares
scheme and full netloc, which determines the host), and whenever scheme or
host differ the stored registration is discarded and a fresh account is
registered, whatever the state of the client key files. -/
theorem registration_origin_check (uri directory_url : String)
    (clientKeyExists legacyKeyExists : Bool) :
    (connectRegistration (some uri) directory_url clientKeyExists legacyKeyExists =
        RegOutcome.reused →
      urlScheme uri = urlScheme directory_url ∧ urlHost uri = urlHost directory_url) ∧
    ((urlScheme uri ≠ urlScheme directory_url ∨ urlHost uri ≠ urlHost directory_url) →
      connectRegistration (some uri) directory_url clientKeyExists legacyKeyExists =
        RegOutcome.fresh) := by
  have hkept : registrationKept directory_url uri = true →
      urlScheme uri = urlScheme directory_url ∧
      urlHost uri = urlHost directory_url := by
    intro hk
    unfold registrationKept at hk
    rw [Bool.and_eq_true, beq_iff_eq, beq_iff_eq] at hk
    refine ⟨hk.1.symm, ?_⟩
    unfold urlHost
    rw [hk.2]
  by_cases hk : registrationKept directory_url uri = true
  · constructor
    · intro _
      exact hkept hk
    · intro hne
      exfalso
      rcases hne with hne | hne
      · exact hne (hkept hk).1
      · exact hne (hkept hk).2
  · have hk2 : registrationKept directory_url uri = false := by
      cases h2 : registrationKept directory_url uri
      · rfl
      · exact absurd h2 hk
    constructor
    · intro h
      simp [connectRegistration, hk2] at h
    · intro _
      simp [connectRegistration, hk2]

/-- Witness for C5: the spec's scenario 3 — stored registration at
`acme-v1.example.com`, directory now at `acme-v2.example.com` — yields a
fresh registration. -/
theorem registration_origin_check_witness :
    urlHost "https://acme-v1.example.com/reg/42" ≠
      urlHost "https://acme-v2.example.com/directory" ∧
    connectRegistration (some "https://acme-v1.example.com/reg/42")
      "https://acme-v2.example.com/directory" true true = RegOutcome.fresh := by
  refine ⟨by decide, ?_⟩
  exact (registration_origin_check "https://acme-v1.example.com/reg/42"
    "https://acme-v2.example.com/directory" true true).2 (Or.inr (by decide))

/-! ### C3: challenge cleanup on both exit paths -/

/-- Counterexample to C3: when polling raises, the except-branch of
`handle_authorizations` only removes the challenge files and re-raises — it
queues no `clear_http_challenge` hook and performs no further `hooks.call()`
(the only `callEv` in the trace is the pre-poll one). -/
theorem handle_auth_failure_no_clear_cex :
    (handleAuths [⟨"example.com", "/challenges/token1"⟩] false).files = [] ∧
    HookEv.addEv "clear_http_challenge" "example.com" "/challenges/token1" ∉
      (handleAuths [⟨"example.com", "/challenges/token1"⟩] false).events ∧
    ((handleAuths [⟨"example.com", "/challenges/token1"⟩] false).events.count
      HookEv.callEv = 1) := by
  decide

/-- C3 as amended: on every exit path after the challenge files were written,
all created challenge files are removed; on success the `clear_http_challenge`
hooks are queued for each domain and `hooks.call()` is invoked; on failure the
error is propagated after removing the files, but no `clear_http_challenge`
hook fires and no further `hooks.call()` happens. -/
theorem handle_authorizations_cleanup (challenges : List ChalInfo) (pollOk : Bool) :
    (handleAuths challenges pollOk).files = [] ∧
    (handleAuths challenges pollOk).ok = pollOk ∧
    (pollOk = true →
      (handleAuths challenges pollOk).events =
        challenges.map (fun c => HookEv.addEv "set_http_challenge" c.domain c.file) ++
        [HookEv.callEv] ++
        challenges.map (fun c => HookEv.addEv "clear_http_challenge" c.domain c.file) ++
        [HookEv.callEv]) ∧
    (pollOk = false →
      (handleAuths challenges pollOk).events =
        challenges.map (fun c => HookEv.addEv "set_http_challenge" c.domain c.file) ++
        [HookEv.callEv] ∧
      ∀ d f, HookEv.addEv "clear_http_challenge" d f ∉
        (handleAuths challenges pollOk).events) := by
  cases pollOk
  · refine ⟨rfl, rfl, by intro h; exact absurd h (by decide), ?_⟩
    intro _
    refine ⟨by simp [handleAuths], ?_⟩
    intro d f hmem
    simp [handleAuths, List.mem_append, List.mem_map] at hmem
  · refine ⟨rfl, rfl, ?_, by intro h; exact absurd h (by decide)⟩
    intro _
    simp [handleAuths]

/-- Witness for C3 at one domain with successful polling. -/
theorem handle_authorizations_cleanup_witness :
    (handleAuths [⟨"example.com", "/ch/tok"⟩] true).files = [] ∧
    (handleAuths [⟨"example.com", "/ch/tok"⟩] true).events =
      [HookEv.addEv "set_http_challenge" "example.com" "/ch/tok", HookEv.callEv,
       HookEv.addEv "clear_http_challenge" "example.com" "/ch/tok", HookEv.callEv] := by
  have h := handle_authorizations_cleanup [⟨"example.com", "/ch/tok"⟩] true
  exact ⟨h.1, by simpa using h.2.2.1 rfl⟩

/-! ### C4: authorization polling, attempt counting and timeout -/

/-- Helper: against a single always-pending authorization, the loop keeps
requeueing and incrementing until the counter exceeds `retry`, raising the
timeout with the counter at `retry + 1`. -/
theorem runPolls_pending_single (server : String → Nat → PollAnswer)
    (retry : Nat) (d : String) (hserver : ∀ k, server d k = PollAnswer.pending) :
    ∀ (fuel a : Nat) (st : PollState), st.waiting = [d] → st.attempts d = a →
      a ≤ retry → retry + 1 - a ≤ fuel →
      (runPolls server retry fuel st).1 = PollOutcome.err (PollErr.timeout d) ∧
      (runPolls server retry fuel st).2.attempts d = retry + 1 := by
  intro fuel
  induction fuel with
  | zero =>
    intro a st _ _ ha hf
    omega
  | succ f ih =>
    intro a st hw hatt ha _
    obtain ⟨w, pl, att, col⟩ := st
    simp only at hw hatt
    subst hw
    simp only [runPolls, hserver]
    have hb : bump att d d = a + 1 := by simp [bump, hatt]
    rw [hb]
    by_cases hgt : a + 1 > retry
    · rw [if_pos hgt]
      refine ⟨rfl, ?_⟩
      have : a = retry := by omega
      simp [bump, hatt, this]
    · rw [if_neg hgt]
      exact ih (a + 1)
        { waiting := [] ++ [d], polls := bump pl d, attempts := bump att d, collected := col }
        (by simp) (by simp [bump, hatt]) (by omega) (by omega)

/-- Counterexample to C4: with `retry = 3` against a server that answers
pending forever, after 3 polls of the single authorization no timeout has
been raised (its attempt counter stands at 3, which does not exceed `retry`);
the `AcmeError` timeout is raised only on the 4th poll — not "after 3
attempts" as the claim states. -/
theorem poll_timeout_after_three_cex :
    (runPolls (fun _ _ => PollAnswer.pending) 3 3 (initPollState ["example.com"])).1 ≠
      PollOutcome.err (PollErr.timeout "example.com") ∧
    (runPolls (fun _ _ => PollAnswer.pending) 3 3 (initPollState ["example.com"])).2.attempts
      "example.com" = 3 ∧
    (runPolls (fun _ _ => PollAnswer.pending) 3 4 (initPollState ["example.com"])).1 =
      PollOutcome.err (PollErr.timeout "example.com") := by
  decide

/-- C4 as amended: a successful poll of a still-pending authorization
increments that authorization's attempt counter and, while the counter has
not exceeded `retry`, requeues it at the tail of the waiting queue; as soon
as the counter exceeds `retry` the loop fails with the timeout error — so
with `retry = 3` and a server answering pending forever the timeout is
raised on the 4th attempt, with the counter at `retry + 1 = 4`. -/
theorem poll_pending_requeue_timeout
    (server : String → Nat → PollAnswer) (retry : Nat) (d : String)
    (rest : List String) (st : PollState) (fuel : Nat)
    (hw : st.waiting = d :: rest)
    (hpend : server d (st.polls d) = PollAnswer.pending) :
    (st.attempts d + 1 ≤ retry →
      runPolls server retry (fuel + 1) st =
        runPolls server retry fuel
          { waiting := rest ++ [d], polls := bump st.polls d,
            attempts := bump st.attempts d, collected := st.collected }) ∧
    (st.attempts d + 1 > retry →
      (runPolls server retry (fuel + 1) st).1 = PollOutcome.err (PollErr.timeout d) ∧
      (runPolls server retry (fuel + 1) st).2.attempts d = st.attempts d + 1) ∧
    ((∀ k, server d k = PollAnswer.pending) →
      (runPolls server retry (retry + 1) (initPollState [d])).1 =
        PollOutcome.err (PollErr.timeout d) ∧
      (runPolls server retry (retry + 1) (initPollState [d])).2.attempts d =
        retry + 1) := by
  obtain ⟨w, pl, att, col⟩ := st
  simp only at hw hpend
  subst hw
  have hb : bump att d d = att d + 1 := by simp [bump]
  refine ⟨?_, ?_, ?_⟩
  · intro hle
    replace hle : att d + 1 ≤ retry := hle
    simp only [runPolls, hpend]
    rw [hb, if_neg (by omega)]
  · intro hgt
    replace hgt : att d + 1 > retry := hgt
    simp only [runPolls, hpend]
    rw [hb, if_pos hgt]
    exact ⟨rfl, by simp [bump]⟩
  · intro hs
    exact runPolls_pending_single server retry d hs (retry + 1) 0 (initPollState [d])
      rfl rfl (by omega) (by omega)

/-- Witness for C4: the amended timeout at `retry = 3`. -/
theorem poll_pending_requeue_timeout_witness :
    (runPolls (fun _ _ => PollAnswer.pending) 3 4 (initPollState ["example.com"])).1 =
      PollOutcome.err (PollErr.timeout "example.com") ∧
    (runPolls (fun _ _ => PollAnswer.pending) 3 4 (initPollState ["example.com"])).2.attempts
      "example.com" = 4 := by
  have h := (poll_pending_requeue_timeout (fun _ _ => PollAnswer.pending) 3 "example.com"
    [] (initPollState ["example.com"]) 0 rfl rfl).2.2 (fun _ => rfl)
  exact ⟨h.1, h.2⟩

/-! ### C8: hook runner never aborts the caller -/

/-- Helper: a template containing a substitution field whose key is missing
from `kwargs` cannot format successfully. -/
theorem formatArg_unknown_key (kwargs : List (String × String)) (k : String)
    (hk : kwargs.find? (fun e => e.1 == k) = none) :
    ∀ arg : Template, Tok.var k ∈ arg → ∃ e, formatArg kwargs arg = Except.error e := by
  intro arg
  induction arg with
  | nil => intro h; cases h
  | cons tok rest ih =>
    intro hmem
    unfold formatArg
    cases htok : formatTok kwargs tok with
    | error e => exact ⟨e, rfl⟩
    | ok s =>
      have hne : tok ≠ Tok.var k := by
        intro heq
        subst heq
        simp only [formatTok, hk] at htok
        exact Except.noConfusion htok
      have hmem2 : Tok.var k ∈ rest := by
        cases hmem with
        | head => exact absurd rfl hne
        | tail _ h => exact h
      obtain ⟨e, he⟩ := ih hmem2
      rw [he]
      exact ⟨e, rfl⟩

/-- Helper: a command with an argv entry that fails to format fails as a
whole. -/
theorem formatArgs_unknown_key (kwargs : List (String × String)) (k : String)
    (hk : kwargs.find? (fun e => e.1 == k) = none) :
    ∀ cmd : HookCmd, (∃ arg ∈ cmd, Tok.var k ∈ arg) →
      ∃ e, formatArgs kwargs cmd = Except.error e := by
  intro cmd
  induction cmd with
  | nil => rintro ⟨arg, hmem, _⟩; cases hmem
  | cons a rest ih =>
    rintro ⟨arg, hmem, hvar⟩
    unfold formatArgs
    cases ha : formatArg kwargs a with
    | error e => exact ⟨e, rfl⟩
    | ok s =>
      have hmem2 : arg ∈ rest := by
        cases hmem with
        | head =>
          obtain ⟨e, he⟩ := formatArg_unknown_key kwargs k hk a hvar
          rw [ha] at he
          cases he
        | tail _ h => exact h
      obtain ⟨e, he⟩ := ih ⟨arg, hmem2, hvar⟩
      rw [he]
      exact ⟨e, rfl⟩

/-- Helper: when some command in the list fails to format, the `add` loop
returns a warning (the caught `KeyError`). -/
theorem addLoop_warning (kwargs : List (String × String)) :
    ∀ cmds : List HookCmd, (∃ cmd ∈ cmds, ∃ e, formatArgs kwargs cmd = Except.error e) →
      (addLoop kwargs cmds).2.isSome = true := by
  intro cmds
  induction cmds with
  | nil => rintro ⟨cmd, hmem, _⟩; cases hmem
  | cons c rest ih =>
    rintro ⟨cmd, hmem, e, he⟩
    unfold addLoop
    cases hc : formatArgs kwargs c with
    | error k2 => rfl
    | ok argv =>
      have hmem2 : cmd ∈ rest := by
        cases hmem with
        | head => rw [hc] at he; cases he
        | tail _ h => exact h
      simpa using ih ⟨cmd, hmem2, e, he⟩

/-- C8: `Hooks.call` executes every queued invocation in queue order — the
executed argv sequence is exactly the queue flattened in insertion order,
whatever the per-invocation exit results (failures are caught and the loop
continues) — and afterwards the queue is empty; and `Hooks.add` with an
unknown substitution key in one of the configured argv templates returns its
queue together with a warning instead of raising to the caller. -/
theorem hooks_order_and_warnings (q : HooksQueue) (exec : List String → Bool)
    (commands : String → List HookCmd) (name : String)
    (kwargs : List (String × String)) :
    ((Hooks.call q exec).1.map Prod.fst = (q.map Prod.snd).flatten) ∧
    ((Hooks.call q exec).2 = []) ∧
    (∀ argv ∈ (q.map Prod.snd).flatten, (argv, exec argv) ∈ (Hooks.call q exec).1) ∧
    (∀ cmd ∈ commands name, ∀ k,
      (∃ arg ∈ cmd, Tok.var k ∈ arg) →
      kwargs.find? (fun e => e.1 == k) = none →
      (Hooks.add commands q name kwargs).2.isSome = true) := by
  refine ⟨?_, rfl, ?_, ?_⟩
  · show ((q.map Prod.snd).flatten.map (fun a => (a, exec a))).map Prod.fst =
        (q.map Prod.snd).flatten
    generalize (q.map Prod.snd).flatten = l
    induction l with
    | nil => rfl
    | cons a t ih => simp only [List.map_cons, ih]
  · intro argv hmem
    unfold Hooks.call
    exact List.mem_map_of_mem (fun a => (a, exec a)) hmem
  · intro cmd hcmd k hvar hk
    have hwarn : (addLoop kwargs (commands name)).2.isSome = true :=
      addLoop_warning kwargs (commands name)
        ⟨cmd, hcmd, formatArgs_unknown_key kwargs k hk cmd hvar⟩
    unfold Hooks.add
    cases hcn : commands name with
    | nil => rw [hcn] at hcmd; cases hcmd
    | cons c rest =>
      rw [hcn] at hwarn
      simpa using hwarn

/-- Witness for C8: a queue of two hooks executed in order with one failing
invocation, and an `add` with an unknown `domain` key yielding a warning. -/
theorem hooks_order_and_warnings_witness :
    ((Hooks.call [("deploy", [["systemctl", "reload", "nginx"]]),
        ("notify", [["mail", "admin"]])] (fun a => a == ["mail", "admin"])).1.map
      Prod.fst = [["systemctl", "reload", "nginx"], ["mail", "admin"]]) ∧
    ((Hooks.call [("deploy", [["systemctl", "reload", "nginx"]]),
        ("notify", [["mail", "admin"]])] (fun a => a == ["mail", "admin"])).2 = []) ∧
    ((Hooks.add (fun n => if n = "deploy" then [[[Tok.var "domain"]]] else [])
        [] "deploy" []).2.isSome = true) := by
  have h := hooks_order_and_warnings
    [("deploy", [["systemctl", "reload", "nginx"]]), ("notify", [["mail", "admin"]])]
    (fun a => a == ["mail", "admin"])
    (fun n => if n = "deploy" then [[[Tok.var "domain"]]] else [])
    "deploy" []
  refine ⟨by simpa using h.1, h.2.1, ?_⟩
  exact h.2.2.2 [[Tok.var "domain"]] (by simp) "domain"
    ⟨[Tok.var "domain"], by simp, by simp⟩ rfl

/-! ### File-transaction lemmas -/

/-- Reading after a write. -/
theorem fsRead_fsWrite (fs : FS) (p c q : String) :
    fsRead (fsWrite fs p c) q = if q = p then some c else fsRead fs q := rfl

/-- Reading after a removal. -/
theorem fsRead_fsRemove (fs : FS) (p q : String) :
    fsRead (fsRemove fs p) q = if q = p then none else fsRead fs q := rfl

/-- An apply touches only the operation's target path and backup path. -/
theorem applyOp_frame (ad : Option String) (op : WriteOp) (f : FailureMode)
    (fs : FS) (q : String) (hq1 : q ≠ op.file_path) (hq2 : q ≠ tmpOf ad op) :
    fsRead (applyOp ad op f fs).1 q = fsRead fs q := by
  cases f with
  | failBeforeRename => rfl
  | noFail =>
    unfold applyOp
    cases hm : fsRead fs op.file_path <;> cases hc : contentTruthy op.content <;>
      simp [hm, hc, fsRead_fsWrite, fsRead_fsRemove, hq1, hq2]
  | failOpen =>
    unfold applyOp
    cases hm : fsRead fs op.file_path <;> cases hc : contentTruthy op.content <;>
      simp [hm, hc, fsRead_fsWrite, fsRead_fsRemove, hq1, hq2]
  | failDuringWrite written =>
    unfold applyOp
    cases hm : fsRead fs op.file_path <;> cases hc : contentTruthy op.content <;>
      simp [hm, hc, fsRead_fsWrite, fsRead_fsRemove, hq1, hq2]

/-- A fault-free apply succeeds and records exactly whether an original file
was moved to the backup path, plus the archive flag. -/
theorem applyOp_noFail_st (ad : Option String) (op : WriteOp) (fs : FS) :
    (applyOp ad op FailureMode.noFail fs).2 =
      some ⟨(fsRead fs op.file_path).map (fun _ => tmpOf ad op),
            (tmpPathOf ad op).2⟩ := by
  unfold applyOp
  cases hm : fsRead fs op.file_path <;> cases hc : contentTruthy op.content <;>
    simp [hm, hc, tmpOf]

/-- After a fault-free apply, the target path holds exactly the new content
(and nothing when the operation is archive-only). -/
theorem applyOp_noFail_target (ad : Option String) (op : WriteOp) (fs : FS)
    (hne : tmpOf ad op ≠ op.file_path) :
    fsRead (applyOp ad op FailureMode.noFail fs).1 op.file_path =
      if contentTruthy op.content then some (op.content.getD "") else none := by
  unfold applyOp
  cases hm : fsRead fs op.file_path <;> cases hc : contentTruthy op.content <;>
    simp [hm, hc, fsRead_fsWrite, fsRead_fsRemove, hne, Ne.symm hne]

/-- After a fault-free apply onto a fresh backup location, the backup path
holds exactly what the target held before. -/
theorem applyOp_noFail_tmp (ad : Option String) (op : WriteOp) (fs : FS)
    (hne : tmpOf ad op ≠ op.file_path)
    (hfresh : fsRead fs (tmpOf ad op) = none) :
    fsRead (applyOp ad op FailureMode.noFail fs).1 (tmpOf ad op) =
      fsRead fs op.file_path := by
  unfold applyOp
  cases hm : fsRead fs op.file_path <;> cases hc : contentTruthy op.content <;>
    simp [hm, hc, hfresh, fsRead_fsWrite, fsRead_fsRemove, hne, Ne.symm hne]

/-- An injected failure makes apply report no applied state. -/
theorem applyOp_fail_none (ad : Option String) (op : WriteOp) (bf : FailureMode)
    (fs : FS)
    (hbf : bf = FailureMode.failBeforeRename ∨
      ((bf = FailureMode.failOpen ∨ ∃ w, bf = FailureMode.failDuringWrite w) ∧
        contentTruthy op.content = true)) :
    (applyOp ad op bf fs).2 = none := by
  rcases hbf with h | ⟨h | ⟨w, h⟩, hc⟩ <;> subst h
  · rfl
  · unfold applyOp
    cases hm : fsRead fs op.file_path <;> simp [hm, hc]
  · unfold applyOp
    cases hm : fsRead fs op.file_path <;> simp [hm, hc]

/-- A failure before the rename leaves the filesystem untouched. -/
theorem applyOp_failBR (ad : Option String) (op : WriteOp) (fs : FS) :
    (applyOp ad op FailureMode.failBeforeRename fs).1 = fs := rfl

/-- A failure in the `open` call itself leaves the original moved to the
backup path and no file at the target path. -/
theorem applyOp_failOpen (ad : Option String) (op : WriteOp) (fs : FS)
    (hc : contentTruthy op.content = true)
    (hne : tmpOf ad op ≠ op.file_path)
    (hfresh : fsRead fs (tmpOf ad op) = none) :
    fsRead (applyOp ad op FailureMode.failOpen fs).1 (tmpOf ad op) =
      fsRead fs op.file_path ∧
    fsRead (applyOp ad op FailureMode.failOpen fs).1 op.file_path = none := by
  unfold applyOp
  cases hm : fsRead fs op.file_path <;>
    simp [hm, hc, hfresh, fsRead_fsWrite, fsRead_fsRemove, hne, Ne.symm hne]

/-- A failure after `open` succeeded leaves the original moved to the backup
path and the target holding the partial content that reached it (`open`
creates or truncates the target before mode, ownership and content are
written). -/
theorem applyOp_failDW (ad : Option String) (op : WriteOp) (fs : FS)
    (written : String) (hc : contentTruthy op.content = true)
    (hne : tmpOf ad op ≠ op.file_path)
    (hfresh : fsRead fs (tmpOf ad op) = none) :
    fsRead (applyOp ad op (FailureMode.failDuringWrite written) fs).1 (tmpOf ad op) =
      fsRead fs op.file_path ∧
    fsRead (applyOp ad op (FailureMode.failDuringWrite written) fs).1 op.file_path =
      some written := by
  unfold applyOp
  cases hm : fsRead fs op.file_path <;>
    simp [hm, hc, hfresh, fsRead_fsWrite, fsRead_fsRemove, hne, Ne.symm hne]

/-- A revert touches only the operation's target path and recorded backup
path. -/
theorem revertOp_frame (op : WriteOp) (st : OpState) (fs : FS) (q : String)
    (hq1 : q ≠ op.file_path) (hq2 : ∀ t, st.tmp_path = some t → q ≠ t) :
    fsRead (revertOp op st fs) q = fsRead fs q := by
  unfold revertOp
  cases hst : st.tmp_path with
  | none => simp [fsRead_fsRemove, hq1]
  | some t =>
    have hqt := hq2 t hst
    cases hm : fsRead (fsRemove fs op.file_path) t <;>
      simp [hm, fsRead_fsWrite, fsRead_fsRemove, hq1, hqt]

/-- Reverting an operation that moved its original to the backup restores
the original at the target path. -/
theorem revertOp_target_some (op : WriteOp) (st : OpState) (fs : FS)
    (t : String) (c : String) (hst : st.tmp_path = some t)
    (ht : t ≠ op.file_path) (hc : fsRead fs t = some c) :
    fsRead (revertOp op st fs) op.file_path = some c := by
  have hc2 : fsRead (fsRemove fs op.file_path) t = some c := by
    rw [fsRead_fsRemove, if_neg ht, hc]
  simp [revertOp, hst, hc2, fsRead_fsWrite]

/-- Reverting an operation that moved nothing leaves the target path empty
(the newly written file, if any, is deleted). -/
theorem revertOp_target_none (op : WriteOp) (st : OpState) (fs : FS)
    (hst : st.tmp_path = none) :
    fsRead (revertOp op st fs) op.file_path = none := by
  simp [revertOp, hst, fsRead_fsRemove]

/-- A cleanup touches nothing when the backup is archived, and only the
recorded backup path otherwise. -/
theorem cleanupOp_frame (op : WriteOp) (st : OpState) (fs : FS) (q : String)
    (h : st.archived = true ∨ ∀ t, st.tmp_path = some t → q ≠ t) :
    fsRead (cleanupOp op st fs) q = fsRead fs q := by
  unfold cleanupOp
  cases harch : st.archived with
  | true => simp
  | false =>
    rcases h with h | h
    · rw [harch] at h; cases h
    · cases hst : st.tmp_path with
      | none => simp
      | some t => simp [fsRead_fsRemove, h t hst]

/-- Decomposing separation at the head of a list. -/
theorem sepPaths_cons (ad : Option String) (op : WriteOp) (l : List WriteOp)
    (h : SepPaths ad (op :: l)) :
    SepPaths ad l ∧
    (∀ o ∈ l, op.file_path ≠ o.file_path ∧ op.file_path ≠ tmpOf ad o ∧
      tmpOf ad op ≠ o.file_path ∧ tmpOf ad op ≠ tmpOf ad o) ∧
    tmpOf ad op ≠ op.file_path := by
  obtain ⟨hp, hs⟩ := h
  rw [List.pairwise_cons] at hp
  exact ⟨⟨hp.2, fun o ho => hs o (List.mem_cons_of_mem _ ho)⟩,
    hp.1, hs op (List.mem_cons_self _ _)⟩

/-- Separation gives disjointness between any two distinct members. -/
theorem sepPaths_mem (ad : Option String) (l : List WriteOp)
    (h : SepPaths ad l) :
    ∀ a ∈ l, ∀ b ∈ l, a ≠ b →
      a.file_path ≠ b.file_path ∧ a.file_path ≠ tmpOf ad b ∧
      tmpOf ad a ≠ b.file_path ∧ tmpOf ad a ≠ tmpOf ad b := by
  have hsym : Symmetric (fun a b : WriteOp =>
      a.file_path ≠ b.file_path ∧ a.file_path ≠ tmpOf ad b ∧
      tmpOf ad a ≠ b.file_path ∧ tmpOf ad a ≠ tmpOf ad b) := by
    rintro a b ⟨h1, h2, h3, h4⟩
    exact ⟨h1.symm, h3.symm, h2.symm, h4.symm⟩
  intro a ha b hb hab
  exact h.1.forall hsym ha hb hab

/-- A fault-free apply always succeeds. -/
theorem applyOp_noFail_split (ad : Option String) (op : WriteOp) (fs : FS) :
    applyOp ad op FailureMode.noFail fs =
      ((applyOp ad op FailureMode.noFail fs).1,
       some ⟨(fsRead fs op.file_path).map (fun _ => tmpOf ad op),
             (tmpPathOf ad op).2⟩) :=
  Prod.ext rfl (applyOp_noFail_st ad op fs)

/-- The apply phase applies fault-free operations in submission order and
succeeds. -/
theorem applyAll_noFail_shape (ad : Option String) :
    ∀ (l : List WriteOp) (fs : FS),
      (applyAll ad (l.map (fun op => (op, FailureMode.noFail))) fs).1.map Prod.fst = l ∧
      (applyAll ad (l.map (fun op => (op, FailureMode.noFail))) fs).2.2 = true := by
  intro l
  induction l with
  | nil => intro fs; exact ⟨rfl, rfl⟩
  | cons op rest ih =>
    intro fs
    rw [List.map_cons]
    rw [show applyAll ad ((op, FailureMode.noFail) ::
          rest.map (fun op => (op, FailureMode.noFail))) fs =
        ((op, ⟨(fsRead fs op.file_path).map (fun _ => tmpOf ad op),
               (tmpPathOf ad op).2⟩) ::
          (applyAll ad (rest.map (fun op => (op, FailureMode.noFail)))
            (applyOp ad op FailureMode.noFail fs).1).1,
         (applyAll ad (rest.map (fun op => (op, FailureMode.noFail)))
            (applyOp ad op FailureMode.noFail fs).1).2) from by
      conv_lhs => rw [applyAll, applyOp_noFail_split ad op fs]]
    have h := ih (applyOp ad op FailureMode.noFail fs).1
    exact ⟨by rw [List.map_cons, h.1], h.2⟩

/-- Unfolding one successful apply step. -/
theorem applyAll_cons_some (ad : Option String) (op : WriteOp) (f : FailureMode)
    (rest : List (WriteOp × FailureMode)) (fs : FS) (st : OpState)
    (h : (applyOp ad op f fs).2 = some st) :
    applyAll ad ((op, f) :: rest) fs =
      ((op, st) :: (applyAll ad rest (applyOp ad op f fs).1).1,
       (applyAll ad rest (applyOp ad op f fs).1).2) := by
  have hsplit : applyOp ad op f fs = ((applyOp ad op f fs).1, some st) :=
    Prod.ext rfl h
  conv_lhs => rw [applyAll, hsplit]

/-- Unfolding one failing apply step. -/
theorem applyAll_cons_none (ad : Option String) (op : WriteOp) (f : FailureMode)
    (rest : List (WriteOp × FailureMode)) (fs : FS)
    (h : (applyOp ad op f fs).2 = none) :
    applyAll ad ((op, f) :: rest) fs = ([], (applyOp ad op f fs).1, false) := by
  have hsplit : applyOp ad op f fs = ((applyOp ad op f fs).1, none) :=
    Prod.ext rfl h
  conv_lhs => rw [applyAll, hsplit]

/-- Characterization of a fault-free apply phase over separated operations:
paths outside the group are untouched, every backup path holds what its
target held before the commit, every target holds its new content (nothing
for archive-only operations), and each recorded operation state is determined
by the pre-commit filesystem. -/
theorem applyAll_noFail_char (ad : Option String) :
    ∀ (l : List WriteOp) (fs : FS), SepPaths ad l → TmpFresh ad l fs →
      (∀ q : String, (∀ op ∈ l, q ≠ op.file_path ∧ q ≠ tmpOf ad op) →
        fsRead (applyAll ad (l.map (fun op => (op, FailureMode.noFail))) fs).2.1 q =
          fsRead fs q) ∧
      (∀ op ∈ l,
        fsRead (applyAll ad (l.map (fun op => (op, FailureMode.noFail))) fs).2.1
          (tmpOf ad op) = fsRead fs op.file_path) ∧
      (∀ op ∈ l,
        fsRead (applyAll ad (l.map (fun op => (op, FailureMode.noFail))) fs).2.1
          op.file_path =
          if contentTruthy op.content then some (op.content.getD "") else none) ∧
      (∀ x ∈ (applyAll ad (l.map (fun op => (op, FailureMode.noFail))) fs).1,
        x.2 = ⟨(fsRead fs x.1.file_path).map (fun _ => tmpOf ad x.1),
               (tmpPathOf ad x.1).2⟩) := by
  intro l
  induction l with
  | nil =>
    intro fs _ _
    refine ⟨fun q _ => rfl, fun op h => absurd h (List.not_mem_nil op), 
      fun op h => absurd h (List.not_mem_nil op), ?_⟩
    intro x hx
    exact absurd hx (List.not_mem_nil x)
  | cons op rest ih =>
    intro fs hsep hfresh
    obtain ⟨hsepR, hdisj, hself⟩ := sepPaths_cons ad op rest hsep
    have hfrop := fun (q : String) (h1 : q ≠ op.file_path) (h2 : q ≠ tmpOf ad op) =>
      applyOp_frame ad op FailureMode.noFail fs q h1 h2
    have hfreshR : TmpFresh ad rest (applyOp ad op FailureMode.noFail fs).1 := by
      intro o ho
      rw [hfrop (tmpOf ad o) (hdisj o ho).2.1.symm (hdisj o ho).2.2.2.symm]
      exact hfresh o (List.mem_cons_of_mem _ ho)
    obtain ⟨ihFrame, ihTmp, ihTarget, ihSt⟩ :=
      ih (applyOp ad op FailureMode.noFail fs).1 hsepR hfreshR
    have hshape := applyAll_noFail_shape ad rest (applyOp ad op FailureMode.noFail fs).1
    rw [List.map_cons,
      applyAll_cons_some ad op FailureMode.noFail _ fs _ (applyOp_noFail_st ad op fs)]
    refine ⟨?_, ?_, ?_, ?_⟩
    · intro q hq
      rw [ihFrame q (fun o ho => hq o (List.mem_cons_of_mem _ ho))]
      exact hfrop q (hq op (List.mem_cons_self _ _)).1 (hq op (List.mem_cons_self _ _)).2
    · intro o ho
      rcases List.mem_cons.mp ho with rfl | hoR
      · rw [ihFrame (tmpOf ad o)
          (fun o2 ho2 => ⟨(hdisj o2 ho2).2.2.1, (hdisj o2 ho2).2.2.2⟩)]
        exact applyOp_noFail_tmp ad o fs hself (hfresh o (List.mem_cons_self _ _))
      · rw [ihTmp o hoR]
        exact hfrop o.file_path (hdisj o hoR).1.symm (hdisj o hoR).2.2.1.symm
    · intro o ho
      rcases List.mem_cons.mp ho with rfl | hoR
      · rw [ihFrame o.file_path
          (fun o2 ho2 => ⟨(hdisj o2 ho2).1, (hdisj o2 ho2).2.1⟩)]
        exact applyOp_noFail_target ad o fs hself
      · exact ihTarget o hoR
    · intro x hx
      rcases List.mem_cons.mp hx with rfl | hxR
      · rfl
      · rw [ihSt x hxR]
        have hx1 : x.1 ∈ rest := by
          rw [← hshape.1]
          exact List.mem_map_of_mem Prod.fst hxR
        rw [hfrop x.1.file_path (hdisj x.1 hx1).1.symm (hdisj x.1 hx1).2.2.1.symm]

/-- Decomposition of an apply phase that fails at a designated operation:
the fault-free prefix is applied and recorded, the failing operation mutates
the filesystem without being recorded, and nothing after it runs. -/
theorem applyAll_fail (ad : Option String) (bad : WriteOp) (bf : FailureMode)
    (post : List (WriteOp × FailureMode))
    (hbf : bf = FailureMode.failBeforeRename ∨
      ((bf = FailureMode.failOpen ∨ ∃ w, bf = FailureMode.failDuringWrite w) ∧
        contentTruthy bad.content = true)) :
    ∀ (pre : List WriteOp) (fs : FS),
      applyAll ad (pre.map (fun op => (op, FailureMode.noFail)) ++ (bad, bf) :: post) fs =
        ((applyAll ad (pre.map (fun op => (op, FailureMode.noFail))) fs).1,
         (applyOp ad bad bf
           (applyAll ad (pre.map (fun op => (op, FailureMode.noFail))) fs).2.1).1,
         false) := by
  intro pre
  induction pre with
  | nil =>
    intro fs
    rw [List.map_nil, List.nil_append,
      applyAll_cons_none ad bad bf post fs (applyOp_fail_none ad bad bf fs hbf)]
    rfl
  | cons op rest ih =>
    intro fs
    rw [List.map_cons, List.cons_append,
      applyAll_cons_some ad op FailureMode.noFail _ fs _ (applyOp_noFail_st ad op fs),
      ih (applyOp ad op FailureMode.noFail fs).1,
      applyAll_cons_some ad op FailureMode.noFail _ fs _ (applyOp_noFail_st ad op fs)]

/-- Rolling back a list of applied operations (in the order the source does)
restores every applied operation's target path to its pre-commit content and
touches no path outside the group. -/
theorem revertAll_restore (ad : Option String) :
    ∀ (l : List (WriteOp × OpState)) (fs orig : FS),
      SepPaths ad (l.map Prod.fst) →
      (∀ x ∈ l, x.2 = ⟨(fsRead orig x.1.file_path).map (fun _ => tmpOf ad x.1),
                       (tmpPathOf ad x.1).2⟩) →
      (∀ x ∈ l, fsRead fs (tmpOf ad x.1) = fsRead orig x.1.file_path) →
      (∀ q : String, (∀ x ∈ l, q ≠ x.1.file_path ∧ q ≠ tmpOf ad x.1) →
        fsRead (revertAll l fs) q = fsRead fs q) ∧
      (∀ x ∈ l, fsRead (revertAll l fs) x.1.file_path = fsRead orig x.1.file_path) := by
  intro l
  induction l with
  | nil =>
    intro fs orig _ _ _
    exact ⟨fun q _ => rfl, fun x hx => absurd hx (List.not_mem_nil x)⟩
  | cons hd rest ih =>
    intro fs orig hsep hst htmp
    obtain ⟨op, st⟩ := hd
    have hsep2 : SepPaths ad (op :: rest.map Prod.fst) := hsep
    obtain ⟨hsepR, hdisj, hself⟩ := sepPaths_cons ad op (rest.map Prod.fst) hsep2
    have hsthd := hst (op, st) (List.mem_cons_self _ _)
    simp only at hsthd
    have hfr : ∀ q : String, q ≠ op.file_path → q ≠ tmpOf ad op →
        fsRead (revertOp op st fs) q = fsRead fs q := by
      intro q h1 h2
      refine revertOp_frame op st fs q h1 ?_
      intro t hts
      rw [hsthd] at hts
      cases hm : fsRead orig op.file_path with
      | none => rw [hm] at hts; cases hts
      | some c =>
        rw [hm] at hts
        simp only [Option.map_some] at hts
        cases hts
        exact h2
    have hstR : ∀ x ∈ rest, x.2 =
        ⟨(fsRead orig x.1.file_path).map (fun _ => tmpOf ad x.1),
         (tmpPathOf ad x.1).2⟩ :=
      fun x hx => hst x (List.mem_cons_of_mem _ hx)
    have htmpR : ∀ x ∈ rest, fsRead (revertOp op st fs) (tmpOf ad x.1) =
        fsRead orig x.1.file_path := by
      intro x hx
      have hx1 : x.1 ∈ rest.map Prod.fst := List.mem_map_of_mem Prod.fst hx
      rw [hfr (tmpOf ad x.1) (hdisj x.1 hx1).2.1.symm (hdisj x.1 hx1).2.2.2.symm]
      exact htmp x (List.mem_cons_of_mem _ hx)
    obtain ⟨ihFrame, ihRestore⟩ := ih (revertOp op st fs) orig hsepR hstR htmpR
    refine ⟨?_, ?_⟩
    · intro q hq
      show fsRead (revertAll rest (revertOp op st fs)) q = fsRead fs q
      rw [ihFrame q (fun x hx => hq x (List.mem_cons_of_mem _ hx))]
      exact hfr q (hq (op, st) (List.mem_cons_self _ _)).1
        (hq (op, st) (List.mem_cons_self _ _)).2
    · intro x hx
      show fsRead (revertAll rest (revertOp op st fs)) x.1.file_path =
        fsRead orig x.1.file_path
      rcases List.mem_cons.mp hx with he | hxR
      · subst he
        show fsRead (revertAll rest (revertOp op st fs)) op.file_path =
          fsRead orig op.file_path
        rw [ihFrame op.file_path (fun y hy => by
          have hy1 : y.1 ∈ rest.map Prod.fst := List.mem_map_of_mem Prod.fst hy
          exact ⟨(hdisj y.1 hy1).1, (hdisj y.1 hy1).2.1⟩)]
        cases hm : fsRead orig op.file_path with
        | none =>
          refine revertOp_target_none op st fs ?_
          rw [hsthd, hm]
          rfl
        | some c =>
          refine revertOp_target_some op st fs (tmpOf ad op) c ?_ hself ?_
          · rw [hsthd, hm]
            rfl
          · rw [htmp (op, st) (List.mem_cons_self _ _), hm]
      · exact ihRestore x hxR

/-- A cleanup pass touches a path only if it is a recorded non-archived
backup path of the group. -/
theorem cleanupAll_frame :
    ∀ (l : List (WriteOp × OpState)) (fs : FS) (q : String),
      (∀ x ∈ l, x.2.archived = true ∨ ∀ t, x.2.tmp_path = some t → q ≠ t) →
      fsRead (cleanupAll l fs) q = fsRead fs q := by
  intro l
  induction l with
  | nil => intro fs q _; rfl
  | cons hd rest ih =>
    intro fs q hq
    rw [cleanupAll, ih (cleanupOp hd.1 hd.2 fs) q
      (fun x hx => hq x (List.mem_cons_of_mem _ hx))]
    exact cleanupOp_frame hd.1 hd.2 fs q (hq hd (List.mem_cons_self _ _))

/-- Mapping a function over the first components. -/
theorem map_fst_map {α β γ : Type} (l : List (α × β)) (g : α → γ) :
    l.map (fun x => g x.1) = (l.map Prod.fst).map g := by
  rw [List.map_map]
  rfl

/-- Splitting separation across an append. -/
theorem sepPaths_append (ad : Option String) (l1 l2 : List WriteOp)
    (h : SepPaths ad (l1 ++ l2)) :
    SepPaths ad l1 ∧ SepPaths ad l2 ∧
    ∀ a ∈ l1, ∀ b ∈ l2,
      a.file_path ≠ b.file_path ∧ a.file_path ≠ tmpOf ad b ∧
      tmpOf ad a ≠ b.file_path ∧ tmpOf ad a ≠ tmpOf ad b := by
  obtain ⟨hp, hs⟩ := h
  rw [List.pairwise_append] at hp
  exact ⟨⟨hp.1, fun o ho => hs o (List.mem_append_left _ ho)⟩,
    ⟨hp.2.1, fun o ho => hs o (List.mem_append_right _ ho)⟩, hp.2.2⟩

/-- A commit whose apply phase fails rolls back the applied prefix and
reports the failure, with the trace showing applies then reverts. -/
theorem commit_decomp_fail (operations : List (WriteOp × FailureMode))
    (ad : Option String) (fs : FS) (app : List (WriteOp × OpState)) (fsb : FS)
    (hne : operations.isEmpty = false)
    (hA : applyAll ad operations fs = (app, fsb, false)) :
    commit_file_transactions operations ad fs =
      ⟨revertAll app fsb, false,
       app.map (fun x => FileEv.applyEv x.1) ++
       app.map (fun x => FileEv.revertEv x.1)⟩ := by
  unfold commit_file_transactions
  rw [hne, hA]
  rfl

/-- A commit whose apply phase succeeds cleans up and reports success, with
the trace showing applies then cleanups. -/
theorem commit_decomp_ok (operations : List (WriteOp × FailureMode))
    (ad : Option String) (fs : FS) (app : List (WriteOp × OpState)) (fs1 : FS)
    (hne : operations.isEmpty = false)
    (hA : applyAll ad operations fs = (app, fs1, true)) :
    commit_file_transactions operations ad fs =
      ⟨cleanupAll app fs1, true,
       app.map (fun x => FileEv.applyEv x.1) ++
       app.map (fun x => FileEv.cleanupEv x.1)⟩ := by
  unfold commit_file_transactions
  rw [hne, hA]
  rfl

/-! ### C2: apply order and revert order -/

/-- Counterexample to C2: a three-operation group whose third apply fails
reverts the two applied operations in the order they were applied (the
rollback loop is `for op in applied`, a forward iteration), not in reverse:
the trace ends `revert f1, revert f2` where the claim requires
`revert f2, revert f1`. -/
theorem commit_revert_order_cex :
    (commit_file_transactions
      [(⟨"f1", 384, some "c1", false, "t"⟩, FailureMode.noFail),
       (⟨"f2", 384, some "c2", false, "t"⟩, FailureMode.noFail),
       (⟨"f3", 384, some "c3", false, "t"⟩, FailureMode.failBeforeRename)]
      none fsEmpty).trace =
      [FileEv.applyEv ⟨"f1", 384, some "c1", false, "t"⟩,
       FileEv.applyEv ⟨"f2", 384, some "c2", false, "t"⟩,
       FileEv.revertEv ⟨"f1", 384, some "c1", false, "t"⟩,
       FileEv.revertEv ⟨"f2", 384, some "c2", false, "t"⟩] ∧
    [FileEv.applyEv (⟨"f1", 384, some "c1", false, "t"⟩ : WriteOp),
     FileEv.applyEv ⟨"f2", 384, some "c2", false, "t"⟩,
     FileEv.revertEv ⟨"f1", 384, some "c1", false, "t"⟩,
     FileEv.revertEv ⟨"f2", 384, some "c2", false, "t"⟩] ≠
    [FileEv.applyEv ⟨"f1", 384, some "c1", false, "t"⟩,
     FileEv.applyEv ⟨"f2", 384, some "c2", false, "t"⟩,
     FileEv.revertEv ⟨"f2", 384, some "c2", false, "t"⟩,
     FileEv.revertEv ⟨"f1", 384, some "c1", false, "t"⟩] := by
  decide

/-- C2 as amended: operations are applied in submission order; when an apply
fails, the already-applied operations are reverted in that same submission
order (the source iterates `applied` forwards), and on success cleanups also
run in submission order. -/
theorem commit_apply_submission_revert_forward
    (ad : Option String) (fs : FS) (pre : List WriteOp) (bad : WriteOp)
    (bf : FailureMode) (post : List (WriteOp × FailureMode))
    (hbf : bf = FailureMode.failBeforeRename ∨
      ((bf = FailureMode.failOpen ∨ ∃ w, bf = FailureMode.failDuringWrite w) ∧
        contentTruthy bad.content = true)) :
    ((commit_file_transactions
        (pre.map (fun op => (op, FailureMode.noFail)) ++ (bad, bf) :: post) ad fs).ok =
      false ∧
     (commit_file_transactions
        (pre.map (fun op => (op, FailureMode.noFail)) ++ (bad, bf) :: post) ad fs).trace =
      pre.map FileEv.applyEv ++ pre.map FileEv.revertEv) ∧
    (∀ (l : List WriteOp) (fs2 : FS),
      (commit_file_transactions (l.map (fun op => (op, FailureMode.noFail))) ad fs2).ok =
        true ∧
      (commit_file_transactions (l.map (fun op => (op, FailureMode.noFail))) ad fs2).trace =
        l.map FileEv.applyEv ++ l.map FileEv.cleanupEv) := by
  constructor
  · have hne : (pre.map (fun op => (op, FailureMode.noFail)) ++
        (bad, bf) :: post).isEmpty = false := by
      cases pre <;> rfl
    have hA := applyAll_fail ad bad bf post hbf pre fs
    have hshape := applyAll_noFail_shape ad pre fs
    rw [commit_decomp_fail _ ad fs _ _ hne hA]
    refine ⟨rfl, ?_⟩
    show (applyAll ad (pre.map (fun op => (op, FailureMode.noFail))) fs).1.map
        (fun x => FileEv.applyEv x.1) ++
      (applyAll ad (pre.map (fun op => (op, FailureMode.noFail))) fs).1.map
        (fun x => FileEv.revertEv x.1) =
      pre.map FileEv.applyEv ++ pre.map FileEv.revertEv
    rw [map_fst_map, map_fst_map, hshape.1]
  · intro l fs2
    cases l with
    | nil => exact ⟨rfl, rfl⟩
    | cons op rest =>
      have hne : ((op :: rest).map (fun op => (op, FailureMode.noFail))).isEmpty =
          false := rfl
      have hshape := applyAll_noFail_shape ad (op :: rest) fs2
      have hA : applyAll ad ((op :: rest).map (fun op => (op, FailureMode.noFail))) fs2 =
          ((applyAll ad ((op :: rest).map (fun op => (op, FailureMode.noFail))) fs2).1,
           (applyAll ad ((op :: rest).map (fun op => (op, FailureMode.noFail))) fs2).2.1,
           true) := by
        rw [← hshape.2]
      rw [commit_decomp_ok _ ad fs2 _ _ hne hA]
      refine ⟨rfl, ?_⟩
      show (applyAll ad ((op :: rest).map (fun op => (op, FailureMode.noFail))) fs2).1.map
          (fun x => FileEv.applyEv x.1) ++
        (applyAll ad ((op :: rest).map (fun op => (op, FailureMode.noFail))) fs2).1.map
          (fun x => FileEv.cleanupEv x.1) =
        (op :: rest).map FileEv.applyEv ++ (op :: rest).map FileEv.cleanupEv
      rw [map_fst_map, map_fst_map, hshape.1]

/-- Witness for C2 at a concrete failing group. -/
theorem commit_apply_submission_revert_forward_witness :
    (commit_file_transactions
      [(⟨"a", 384, some "x", false, "t"⟩, FailureMode.noFail),
       (⟨"b", 384, some "y", false, "t"⟩, FailureMode.failBeforeRename)]
      none fsEmpty).ok = false ∧
    (commit_file_transactions
      [(⟨"a", 384, some "x", false, "t"⟩, FailureMode.noFail),
       (⟨"b", 384, some "y", false, "t"⟩, FailureMode.failBeforeRename)]
      none fsEmpty).trace =
      [FileEv.applyEv ⟨"a", 384, some "x", false, "t"⟩,
       FileEv.revertEv ⟨"a", 384, some "x", false, "t"⟩] := by
  have h := (commit_apply_submission_revert_forward none fsEmpty
    [⟨"a", 384, some "x", false, "t"⟩] ⟨"b", 384, some "y", false, "t"⟩
    FailureMode.failBeforeRename [] (Or.inl rfl)).1
  exact ⟨h.1, h.2⟩

/-! ### C1: rollback restoration -/

/-- Counterexample to C1: an operation whose apply fails after moving the
original aside is not in `applied`, so the rollback never reverts it; after
the failed commit the target path `f` no longer holds its pre-commit content
`old`.  Two such failures: the `open` of the new content raises (the target
is left with no file, the original stranded at the backup path), or `open`
succeeds and a later `fchmod`/`fchown`/`write` error leaves a truncated or
partial file (here the prefix `ne` of the new content) at the target. -/
theorem commit_rollback_not_restored_cex :
    ((commit_file_transactions
      [(⟨"f", 384, some "new", false, "t"⟩, FailureMode.failOpen)]
      none (fsWrite fsEmpty "f" "old")).ok = false ∧
     fsRead (fsWrite fsEmpty "f" "old") "f" = some "old" ∧
     fsRead (commit_file_transactions
      [(⟨"f", 384, some "new", false, "t"⟩, FailureMode.failOpen)]
      none (fsWrite fsEmpty "f" "old")).fs "f" = none) ∧
    ((commit_file_transactions
      [(⟨"f", 384, some "new", false, "t"⟩, FailureMode.failDuringWrite "ne")]
      none (fsWrite fsEmpty "f" "old")).ok = false ∧
     fsRead (commit_file_transactions
      [(⟨"f", 384, some "new", false, "t"⟩, FailureMode.failDuringWrite "ne")]
      none (fsWrite fsEmpty "f" "old")).fs "f" = some "ne") := by
  decide

/-- C1 as amended: when an apply fails, every operation applied before the
failing one is reverted — its newly written file (if any) deleted and the
recorded backup renamed back — so its target path again holds its pre-commit
content, and unapplied operations' targets are untouched; but the failing
operation itself is not reverted: if it failed before its rename its target
is intact, while if it failed after the rename its original content sits at
its backup path and its target path holds either no file (the `open` of the
new content failed) or the partial content written before the failure
(`open` creates or truncates the target before mode, ownership and content
are written). -/
theorem commit_rollback_restores_applied
    (ad : Option String) (pre : List WriteOp) (bad : WriteOp) (bf : FailureMode)
    (post : List (WriteOp × FailureMode)) (fs : FS)
    (hsep : SepPaths ad (pre ++ bad :: post.map Prod.fst))
    (hfresh : TmpFresh ad (pre ++ bad :: post.map Prod.fst) fs)
    (hbf : bf = FailureMode.failBeforeRename ∨
      ((bf = FailureMode.failOpen ∨ ∃ w, bf = FailureMode.failDuringWrite w) ∧
        contentTruthy bad.content = true)) :
    ∀ r : CommitResult,
      r = commit_file_transactions
        (pre.map (fun op => (op, FailureMode.noFail)) ++ (bad, bf) :: post) ad fs →
      r.ok = false ∧
      (∀ op ∈ pre, fsRead r.fs op.file_path = fsRead fs op.file_path) ∧
      (∀ x ∈ post, fsRead r.fs x.1.file_path = fsRead fs x.1.file_path) ∧
      (bf = FailureMode.failBeforeRename →
        fsRead r.fs bad.file_path = fsRead fs bad.file_path) ∧
      (bf = FailureMode.failOpen →
        fsRead r.fs (tmpOf ad bad) = fsRead fs bad.file_path ∧
        fsRead r.fs bad.file_path = none) ∧
      (∀ w, bf = FailureMode.failDuringWrite w →
        fsRead r.fs (tmpOf ad bad) = fsRead fs bad.file_path ∧
        fsRead r.fs bad.file_path = some w) := by
  intro r hr
  obtain ⟨hsepPre, hsepL2, hcross⟩ :=
    sepPaths_append ad pre (bad :: post.map Prod.fst) hsep
  obtain ⟨hsepPost, hdisjBadPost, hbadself⟩ :=
    sepPaths_cons ad bad (post.map Prod.fst) hsepL2
  have hfreshPre : TmpFresh ad pre fs := fun o ho => hfresh o (List.mem_append_left _ ho)
  have hfreshBad : fsRead fs (tmpOf ad bad) = none :=
    hfresh bad (List.mem_append_right _ (List.mem_cons_self _ _))
  have hA := applyAll_fail ad bad bf post hbf pre fs
  have hshape := applyAll_noFail_shape ad pre fs
  obtain ⟨chFrame, chTmp, chTarget, chSt⟩ :=
    applyAll_noFail_char ad pre fs hsepPre hfreshPre
  have hne : (pre.map (fun op => (op, FailureMode.noFail)) ++
      (bad, bf) :: post).isEmpty = false := by
    cases pre <;> rfl
  rw [commit_decomp_fail _ ad fs _ _ hne hA] at hr
  subst hr
  set A := applyAll ad (pre.map (fun op => (op, FailureMode.noFail))) fs with hAdef
  have hpreOf : ∀ x ∈ A.1, x.1 ∈ pre := by
    intro x hx
    rw [← hshape.1]
    exact List.mem_map_of_mem Prod.fst hx
  have hcrossB : ∀ a ∈ pre,
      a.file_path ≠ bad.file_path ∧ a.file_path ≠ tmpOf ad bad ∧
      tmpOf ad a ≠ bad.file_path ∧ tmpOf ad a ≠ tmpOf ad bad :=
    fun a ha => hcross a ha bad (List.mem_cons_self _ _)
  have hfsbFrame : ∀ q : String, q ≠ bad.file_path → q ≠ tmpOf ad bad →
      fsRead (applyOp ad bad bf A.2.1).1 q = fsRead A.2.1 q :=
    fun q h1 h2 => applyOp_frame ad bad bf A.2.1 q h1 h2
  have hsepA : SepPaths ad (A.1.map Prod.fst) := by
    rw [hshape.1]
    exact hsepPre
  have htmpA : ∀ x ∈ A.1,
      fsRead (applyOp ad bad bf A.2.1).1 (tmpOf ad x.1) = fsRead fs x.1.file_path := by
    intro x hx
    have hx1 := hpreOf x hx
    rw [hfsbFrame (tmpOf ad x.1) (hcrossB x.1 hx1).2.2.1 (hcrossB x.1 hx1).2.2.2]
    exact chTmp x.1 hx1
  obtain ⟨rFrame, rRestore⟩ :=
    revertAll_restore ad A.1 (applyOp ad bad bf A.2.1).1 fs hsepA chSt htmpA
  have hcondBadT : ∀ y ∈ A.1,
      bad.file_path ≠ y.1.file_path ∧ bad.file_path ≠ tmpOf ad y.1 :=
    fun y hy => ⟨(hcrossB y.1 (hpreOf y hy)).1.symm, (hcrossB y.1 (hpreOf y hy)).2.2.1.symm⟩
  have hcondBadM : ∀ y ∈ A.1,
      tmpOf ad bad ≠ y.1.file_path ∧ tmpOf ad bad ≠ tmpOf ad y.1 :=
    fun y hy => ⟨(hcrossB y.1 (hpreOf y hy)).2.1.symm, (hcrossB y.1 (hpreOf y hy)).2.2.2.symm⟩
  have hchBadT : fsRead A.2.1 bad.file_path = fsRead fs bad.file_path := by
    refine chFrame bad.file_path ?_
    intro o ho
    exact ⟨(hcrossB o ho).1.symm, (hcrossB o ho).2.2.1.symm⟩
  have hfreshBadA : fsRead A.2.1 (tmpOf ad bad) = none := by
    rw [chFrame (tmpOf ad bad) (fun o ho =>
      ⟨(hcrossB o ho).2.1.symm, (hcrossB o ho).2.2.2.symm⟩)]
    exact hfreshBad
  refine ⟨rfl, ?_, ?_, ?_, ?_, ?_⟩
  · intro op hop
    have hop2 : op ∈ A.1.map Prod.fst := by
      rw [hshape.1]
      exact hop
    obtain ⟨x, hx, hxeq⟩ := List.mem_map.mp hop2
    show fsRead (revertAll A.1 (applyOp ad bad bf A.2.1).1) op.file_path =
      fsRead fs op.file_path
    rw [← hxeq]
    exact rRestore x hx
  · intro x hx
    have hb1 : x.1 ∈ post.map Prod.fst := List.mem_map_of_mem Prod.fst hx
    have hb2 : x.1 ∈ bad :: post.map Prod.fst := List.mem_cons_of_mem _ hb1
    show fsRead (revertAll A.1 (applyOp ad bad bf A.2.1).1) x.1.file_path =
      fsRead fs x.1.file_path
    rw [rFrame x.1.file_path (fun y hy =>
      ⟨(hcross y.1 (hpreOf y hy) x.1 hb2).1.symm,
       (hcross y.1 (hpreOf y hy) x.1 hb2).2.2.1.symm⟩)]
    rw [hfsbFrame x.1.file_path (hdisjBadPost x.1 hb1).1.symm
      (hdisjBadPost x.1 hb1).2.2.1.symm]
    refine chFrame x.1.file_path ?_
    intro o ho
    exact ⟨(hcross o ho x.1 hb2).1.symm, (hcross o ho x.1 hb2).2.2.1.symm⟩
  · intro hb
    subst hb
    show fsRead (revertAll A.1
      (applyOp ad bad FailureMode.failBeforeRename A.2.1).1) bad.file_path =
      fsRead fs bad.file_path
    rw [rFrame bad.file_path hcondBadT]
    exact hchBadT
  · intro hb
    rcases hbf with hb2 | ⟨_, hc⟩
    · rw [hb] at hb2
      cases hb2
    · subst hb
      have hOP := applyOp_failOpen ad bad A.2.1 hc hbadself hfreshBadA
      constructor
      · show fsRead (revertAll A.1
          (applyOp ad bad FailureMode.failOpen A.2.1).1) (tmpOf ad bad) =
          fsRead fs bad.file_path
        rw [rFrame (tmpOf ad bad) hcondBadM, hOP.1]
        exact hchBadT
      · show fsRead (revertAll A.1
          (applyOp ad bad FailureMode.failOpen A.2.1).1) bad.file_path = none
        rw [rFrame bad.file_path hcondBadT]
        exact hOP.2
  · intro w hb
    rcases hbf with hb2 | ⟨_, hc⟩
    · rw [hb] at hb2
      cases hb2
    · subst hb
      have hDW := applyOp_failDW ad bad A.2.1 w hc hbadself hfreshBadA
      constructor
      · show fsRead (revertAll A.1
          (applyOp ad bad (FailureMode.failDuringWrite w) A.2.1).1) (tmpOf ad bad) =
          fsRead fs bad.file_path
        rw [rFrame (tmpOf ad bad) hcondBadM, hDW.1]
        exact hchBadT
      · show fsRead (revertAll A.1
          (applyOp ad bad (FailureMode.failDuringWrite w) A.2.1).1) bad.file_path =
          some w
        rw [rFrame bad.file_path hcondBadT]
        exact hDW.2

/-- Witness for C1: a two-operation group over existing files `a` and `b`
whose second apply fails after its `open` truncated the target; the applied
first operation is restored, the failing one is left as an empty file. -/
theorem commit_rollback_restores_applied_witness :
    (commit_file_transactions
      [(⟨"a", 384, some "na", false, "t"⟩, FailureMode.noFail),
       (⟨"b", 384, some "nb", false, "t"⟩, FailureMode.failDuringWrite "")]
      none (fsWrite (fsWrite fsEmpty "a" "olda") "b" "oldb")).ok = false ∧
    fsRead (commit_file_transactions
      [(⟨"a", 384, some "na", false, "t"⟩, FailureMode.noFail),
       (⟨"b", 384, some "nb", false, "t"⟩, FailureMode.failDuringWrite "")]
      none (fsWrite (fsWrite fsEmpty "a" "olda") "b" "oldb")).fs "a" = some "olda" ∧
    fsRead (commit_file_transactions
      [(⟨"a", 384, some "na", false, "t"⟩, FailureMode.noFail),
       (⟨"b", 384, some "nb", false, "t"⟩, FailureMode.failDuringWrite "")]
      none (fsWrite (fsWrite fsEmpty "a" "olda") "b" "oldb")).fs "b" = some "" := by
  have h := commit_rollback_restores_applied none [⟨"a", 384, some "na", false, "t"⟩]
    ⟨"b", 384, some "nb", false, "t"⟩ (FailureMode.failDuringWrite "") []
    (fsWrite (fsWrite fsEmpty "a" "olda") "b" "oldb")
    (by constructor
        · decide
        · decide)
    (by intro o ho; fin_cases ho <;> decide)
    (Or.inr ⟨Or.inr ⟨"", rfl⟩, by decide⟩) _ rfl
  refine ⟨h.1, ?_, (h.2.2.2.2.2 "" rfl).2⟩
  have ha := h.2.1 ⟨"a", 384, some "na", false, "t"⟩ (List.mem_singleton.mpr rfl)
  exact ha.trans (by decide)

/-! ### C10: archive-only operations -/

/-- C10: a `WriteOperation` whose content is empty or never set reports
`is_write = false` and is applied as archive-only: a successful commit leaves
no file at its target path (any prior file was moved to the backup location,
which the cleanup keeps exactly when the operation archives). -/
theorem archive_only_write_operation
    (ad : Option String) (l : List WriteOp) (fs : FS) (op : WriteOp)
    (hmem : op ∈ l) (hsep : SepPaths ad l) (hfresh : TmpFresh ad l fs)
    (hc : contentTruthy op.content = false) :
    op.is_write = false ∧
    ∀ r : CommitResult,
      r = commit_file_transactions (l.map (fun o => (o, FailureMode.noFail))) ad fs →
      r.ok = true ∧
      fsRead r.fs op.file_path = none ∧
      ((tmpPathOf ad op).2 = true →
        fsRead r.fs (tmpOf ad op) = fsRead fs op.file_path) := by
  refine ⟨hc, ?_⟩
  intro r hr
  have hshape := applyAll_noFail_shape ad l fs
  obtain ⟨chFrame, chTmp, chTarget, chSt⟩ := applyAll_noFail_char ad l fs hsep hfresh
  have hne : (l.map (fun o => (o, FailureMode.noFail))).isEmpty = false := by
    cases l with
    | nil => exact absurd hmem (List.not_mem_nil op)
    | cons a t => rfl
  have hA : applyAll ad (l.map (fun o => (o, FailureMode.noFail))) fs =
      ((applyAll ad (l.map (fun o => (o, FailureMode.noFail))) fs).1,
       (applyAll ad (l.map (fun o => (o, FailureMode.noFail))) fs).2.1, true) := by
    rw [← hshape.2]
  rw [commit_decomp_ok _ ad fs _ _ hne hA] at hr
  subst hr
  set A := applyAll ad (l.map (fun o => (o, FailureMode.noFail))) fs with hAdef
  have hlOf : ∀ x ∈ A.1, x.1 ∈ l := by
    intro x hx
    rw [← hshape.1]
    exact List.mem_map_of_mem Prod.fst hx
  have hclean1 : ∀ x ∈ A.1, x.2.archived = true ∨
      ∀ t, x.2.tmp_path = some t → op.file_path ≠ t := by
    intro x hx
    right
    intro t ht
    rw [chSt x hx] at ht
    simp only at ht
    cases hm : fsRead fs x.1.file_path with
    | none => rw [hm] at ht; simp at ht
    | some c =>
      rw [hm] at ht
      injection ht with ht2
      subst ht2
      by_cases hxo : x.1 = op
      · rw [hxo]
        exact (hsep.2 op hmem).symm
      · exact ((sepPaths_mem ad l hsep x.1 (hlOf x hx) op hmem hxo).2.2.1).symm
  refine ⟨rfl, ?_, ?_⟩
  · show fsRead (cleanupAll A.1 A.2.1) op.file_path = none
    rw [cleanupAll_frame A.1 A.2.1 op.file_path hclean1, chTarget op hmem, hc]
    rfl
  · intro harch
    have hclean2 : ∀ x ∈ A.1, x.2.archived = true ∨
        ∀ t, x.2.tmp_path = some t → tmpOf ad op ≠ t := by
      intro x hx
      by_cases hxo : x.1 = op
      · left
        rw [chSt x hx]
        show (tmpPathOf ad x.1).2 = true
        rw [hxo]
        exact harch
      · right
        intro t ht
        rw [chSt x hx] at ht
        simp only at ht
        cases hm : fsRead fs x.1.file_path with
        | none => rw [hm] at ht; simp at ht
        | some c =>
          rw [hm] at ht
          injection ht with ht2
          subst ht2
          exact ((sepPaths_mem ad l hsep x.1 (hlOf x hx) op hmem hxo).2.2.2).symm
    show fsRead (cleanupAll A.1 A.2.1) (tmpOf ad op) = fsRead fs op.file_path
    rw [cleanupAll_frame A.1 A.2.1 (tmpOf ad op) hclean2]
    exact chTmp op hmem

/-- Witness for C10: an `ArchiveOperation` on `certs/old.pem` with an archive
directory configured; after the successful commit the target holds no file
and the prior content sits in the archive. -/
theorem archive_only_write_operation_witness :
    WriteOp.is_write ⟨"certs/old.pem", 0, none, true, "certificate"⟩ = false ∧
    (commit_file_transactions
      [(⟨"certs/old.pem", 0, none, true, "certificate"⟩, FailureMode.noFail)]
      (some "archive") (fsWrite fsEmpty "certs/old.pem" "PEMDATA")).ok = true ∧
    fsRead (commit_file_transactions
      [(⟨"certs/old.pem", 0, none, true, "certificate"⟩, FailureMode.noFail)]
      (some "archive") (fsWrite fsEmpty "certs/old.pem" "PEMDATA")).fs
      "certs/old.pem" = none ∧
    fsRead (commit_file_transactions
      [(⟨"certs/old.pem", 0, none, true, "certificate"⟩, FailureMode.noFail)]
      (some "archive") (fsWrite fsEmpty "certs/old.pem" "PEMDATA")).fs
      "archive/certificate/old.pem" = some "PEMDATA" := by
  have h := archive_only_write_operation (some "archive")
    [⟨"certs/old.pem", 0, none, true, "certificate"⟩]
    (fsWrite fsEmpty "certs/old.pem" "PEMDATA")
    ⟨"certs/old.pem", 0, none, true, "certificate"⟩
    (List.mem_singleton.mpr rfl)
    (by constructor
        · decide
        · decide)
    (by intro o ho; fin_cases ho <;> decide)
    (by decide)
  obtain ⟨h1, h2⟩ := h
  have h3 := h2 _ rfl
  refine ⟨h1, h3.1, h3.2.1, ?_⟩
  have h4 := h3.2.2 (by decide)
  rw [show ("archive/certificate/old.pem" : String) =
    tmpOf (some "archive") ⟨"certs/old.pem", 0, none, true, "certificate"⟩ from by decide]
  exact h4.trans (by decide)
